import Mathlib

/-!
Verification development for the PlatMaison `MenuManager` concept
(`src/platmaison.ts`).  The TypeScript class is shallowly embedded:

* JavaScript numbers are modelled as `ℚ` (the code performs only exact
  field reads, `+`, `*` and `/`; the single place where the code relies on
  IEEE `NaN` semantics — `0/0` compared with `< 75` — is modelled
  explicitly at that site).
* The mutable `MenuManager` object is modelled by explicit state passing:
  every action takes a `MenuManager` and returns, on success, the updated
  one.  Every `throw` in the source happens before any mutation of the
  receiver, so a thrown error is modelled as `Except.error` carrying no
  state (the state is unchanged).
* A JS object reference from an ingredient line to a shared `Item` is
  modelled as the index of that item in the manager's `items` array; items
  are only ever appended or mutated in place, so indices are stable, which
  is exactly what makes the JS reference sharing observable.
* `console.warn` output of the ingredient-integration loop (the only
  observable report of unresolved ingredients) is modelled as an explicit
  list of the unresolved ingredient names returned next to the recipe.
-/

set_option allowUnsafeReducibility true in
attribute [semireducible] Rat.add Rat.mul Rat.inv Rat.sub Rat.ofScientific

namespace PlatMaison

/-- `l.findIndex`/`find` of JavaScript arrays: index of the first element
satisfying `p`. -/
def firstIdx (p : α → Bool) : List α → Option ℕ
  | [] => none
  | a :: as => if p a then some 0 else (firstIdx p as).map (· + 1)

/-- Read a list element, with an explicit default for the (unreachable in
the embedded code paths) out-of-range case. -/
def nthD : List α → ℕ → α → α
  | [], _, d => d
  | a :: _, 0, _ => a
  | _ :: as, n + 1, d => nthD as n d

/-- Replace the element at an index, modelling in-place mutation of one
cell of a JS array. -/
def setNth : List α → ℕ → α → List α
  | [], _, _ => []
  | _ :: as, 0, x => x :: as
  | a :: as, n + 1, x => a :: setNth as n x

/-- JS `haystack.includes(needle)` on strings, on the underlying character
lists: `needle` occurs contiguously inside `haystack`. -/
def isPrefixLC : List Char → List Char → Bool
  | [], _ => true
  | _ :: _, [] => false
  | a :: as, b :: bs => a == b && isPrefixLC as bs

/-- Substring occurrence on character lists (see `strIncludes`). -/
def subListAt (needle : List Char) : List Char → Bool
  | [] => needle.isEmpty
  | c :: rest => isPrefixLC needle (c :: rest) || subListAt needle rest

/-- JS `String.prototype.includes`. -/
def strIncludes (haystack needle : String) : Bool :=
  subListAt needle.data haystack.data

/-- JS `String.prototype.toLowerCase` (character-wise lowering; the
embedded claims use ASCII names, where the two coincide). -/
def strLower (s : String) : String :=
  ⟨s.data.map Char.toLower⟩

/-- Split a character list at every character satisfying `p`, keeping
empty segments — the semantics of JS `String.prototype.split` with a
single-character separator.  The result is always nonempty. -/
def splitChars (p : Char → Bool) : List Char → List (List Char)
  | [] => [[]]
  | c :: rest =>
    if p c then [] :: splitChars p rest
    else
      match splitChars p rest with
      | [] => [[c]]
      | seg :: segs => (c :: seg) :: segs

/-- JS `s.split(' ')`: split at every single space character, keeping
empty segments. -/
def jsSplitSpace (s : String) : List String :=
  (splitChars (fun c => c == ' ') s.data).map (fun cs => ⟨cs⟩)

/-- `interface Item` (src/platmaison.ts): a purchasable item.  `price` is
the pack price, `quantity` the pack quantity. -/
structure Item where
  name : String
  price : ℚ
  quantity : ℚ
  units : String
  store : String
  confirmed : Bool
deriving Repr, DecidableEq

instance : Inhabited Item := ⟨⟨"", 0, 0, "", "", false⟩⟩

/-- `interface Ingredient`: a recipe's line `{item, amount}`.  The JS
object reference `item` is modelled as the index of the item in
`MenuManager.items`. -/
structure Ingredient where
  itemIdx : ℕ
  amount : ℚ
deriving Repr, DecidableEq

instance : Inhabited Ingredient := ⟨⟨0, 0⟩⟩

/-- `interface Recipe` of the `MenuManager` document. -/
structure Recipe where
  id : String
  name : String
  instructions : String
  servingQuantity : ℚ
  dishType : String
  scalingFactor : ℚ
  ingredients : List Ingredient
  dishPrice : ℚ
deriving Repr, DecidableEq

instance : Inhabited Recipe := ⟨⟨"", "", "", 0, "", 1, [], 0⟩⟩

/-- `interface Menu`. -/
structure Menu where
  id : String
  name : String
  date : String
  recipes : List Recipe
  menuCost : ℚ
deriving Repr, DecidableEq

instance : Inhabited Menu := ⟨⟨"", "", "", [], 0⟩⟩

/-- The private state of `class MenuManager`. -/
structure MenuManager where
  menus : List Menu
  items : List Item
  nextId : ℕ
deriving Repr, DecidableEq

/-- The errors thrown by `MenuManager` methods.  `jsTypeError` stands for
the dynamic `TypeError`s the extraction code can raise on ill-shaped
parsed values (e.g. calling `.split` on `undefined`). -/
inductive PMError where
  | menuNotFound (id : String)
  | recipeNotFound (id : String)
  | itemNotFound (name : String)
  | duplicateItem (name : String)
  | alreadyConfirmed (name : String)
  | noStructuredData
  | malformedData
  | missingFields
  | semanticMismatch (pct : ℚ)
  | jsTypeError
deriving Repr, DecidableEq

deriving instance DecidableEq for Except

/-- `true` exactly on `Except.ok`. -/
def exceptOk : Except PMError α → Bool
  | .ok _ => true
  | .error _ => false

/-- `findItemByName` (line 400): case-insensitive `Array.find` over
`this.items`; we return the index (the JS reference). -/
def findItemIdxByName (items : List Item) (name : String) : Option ℕ :=
  firstIdx (fun it => strLower it.name == strLower name) items

/-- `enterItem` (line 277): fails when a case-insensitive name match
already exists, otherwise appends a new unconfirmed item. -/
def enterItem (st : MenuManager) (name : String) (price quantity : ℚ)
    (units store : String) : Except PMError (MenuManager × Item) :=
  match findItemIdxByName st.items name with
  | some _ => .error (.duplicateItem name)
  | none =>
    let newItem : Item := ⟨name, price, quantity, units, store, false⟩
    .ok ({ st with items := st.items ++ [newItem] }, newItem)

/-- `confirmItem` (line 289). -/
def confirmItem (st : MenuManager) (name : String) :
    Except PMError (MenuManager × Item) :=
  match findItemIdxByName st.items name with
  | none => .error (.itemNotFound name)
  | some i =>
    let it := nthD st.items i default
    if it.confirmed then .error (.alreadyConfirmed name)
    else
      let it' := { it with confirmed := true }
      .ok ({ st with items := setNth st.items i it' }, it')

/-- The `updates : Partial<Omit<Item, 'name' | 'confirmed'>>` argument of
`updateItem`: each field is optionally replaced. -/
structure ItemUpdates where
  price : Option ℚ := none
  quantity : Option ℚ := none
  units : Option String := none
  store : Option String := none
deriving Repr, DecidableEq

/-- `Object.assign(item, updates)` for `updateItem`. -/
def applyItemUpdates (it : Item) (u : ItemUpdates) : Item :=
  { it with
    price := u.price.getD it.price
    quantity := u.quantity.getD it.quantity
    units := u.units.getD it.units
    store := u.store.getD it.store }

/-- `recipe.ingredients.reduce(...)` of `recalculateCosts` (line 405):
`Σ (item.price / item.quantity) * line.amount * recipe.scalingFactor`. -/
def dishSum (items : List Item) (r : Recipe) : ℚ :=
  r.ingredients.foldl
    (fun total ing =>
      total + (nthD items ing.itemIdx default).price
        / (nthD items ing.itemIdx default).quantity
        * ing.amount * r.scalingFactor)
    0

/-- `menu.recipes.reduce(...)` of `recalculateCosts` (line 409). -/
def sumPrices (rs : List Recipe) : ℚ :=
  rs.foldl (fun total r => total + r.dishPrice) 0

/-- `recalculateCosts(menu, recipe)` (line 404), with the recipe given by
its position in `menu.recipes`: rewrite that recipe's `dishPrice` from its
ingredient lines, then rewrite `menu.menuCost` from all recipes. -/
def recostRecipeAt (items : List Item) (m : Menu) (ri : ℕ) : Menu :=
  let r := nthD m.recipes ri default
  let r' := { r with dishPrice := dishSum items r }
  let rs := setNth m.recipes ri r'
  { m with recipes := rs, menuCost := sumPrices rs }

/-- `menu.recipes.forEach(recipe => recalculateCosts(menu, recipe))` of
`recalculateAllMenuCosts` (line 413), processing indices `0 … k-1` in
order. -/
def recalcMenuAux (items : List Item) (m : Menu) : ℕ → Menu
  | 0 => m
  | k + 1 => recostRecipeAt items (recalcMenuAux items m k) k

/-- One menu's pass of `recalculateAllMenuCosts`. -/
def recalcMenu (items : List Item) (m : Menu) : Menu :=
  recalcMenuAux items m m.recipes.length

/-- `recalculateAllMenuCosts` (line 412). -/
def recalculateAllMenuCosts (st : MenuManager) : MenuManager :=
  { st with menus := st.menus.map (recalcMenu st.items) }

/-- `updateItem` (line 304): find the item case-insensitively, mutate it
in place (name and confirmed are immutable via this path), then recost
every menu. -/
def updateItem (st : MenuManager) (name : String) (u : ItemUpdates) :
    Except PMError (MenuManager × Item) :=
  match findItemIdxByName st.items name with
  | none => .error (.itemNotFound name)
  | some i =>
    let it' := applyItemUpdates (nthD st.items i default) u
    let st1 : MenuManager := { st with items := setNth st.items i it' }
    .ok (recalculateAllMenuCosts st1, it')

/-- `createMenu` (line 318). -/
def createMenu (st : MenuManager) (name date : String) :
    MenuManager × Menu :=
  let m : Menu := ⟨"menu-" ++ toString st.nextId, name, date, [], 0⟩
  ({ st with menus := st.menus ++ [m], nextId := st.nextId + 1 }, m)

/-- `createRecipe` (line 333); `scalingFactor` defaults to `1.0` at call
sites that omit it. -/
def createRecipe (st : MenuManager) (menuId name instructions : String)
    (servingQuantity : ℚ) (dishType : String) (scalingFactor : ℚ) :
    Except PMError (MenuManager × Recipe) :=
  match firstIdx (fun m => m.id == menuId) st.menus with
  | none => .error (.menuNotFound menuId)
  | some mi =>
    let m := nthD st.menus mi default
    let r : Recipe := ⟨"recipe-" ++ toString st.nextId, name, instructions,
      servingQuantity, dishType, scalingFactor, [], 0⟩
    let m' := { m with recipes := m.recipes ++ [r] }
    .ok ({ st with menus := setNth st.menus mi m', nextId := st.nextId + 1 }, r)

/-- `updateIngredient` (line 372).  Resolution of `itemName` against the
catalog is case-insensitive (`findItemByName`), but the check for an
existing ingredient line is the exact comparison
`ing.item.name === itemName` (line 387). -/
def updateIngredient (st : MenuManager) (menuId recipeId itemName : String)
    (amount : ℚ) : Except PMError (MenuManager × Recipe) :=
  match firstIdx (fun m => m.id == menuId) st.menus with
  | none => .error (.menuNotFound menuId)
  | some mi =>
    let m := nthD st.menus mi default
    match firstIdx (fun r => r.id == recipeId) m.recipes with
    | none => .error (.recipeNotFound recipeId)
    | some ri =>
      match findItemIdxByName st.items itemName with
      | none => .error (.itemNotFound itemName)
      | some ii =>
        let r := nthD m.recipes ri default
        let ingredients' :=
          match firstIdx
              (fun ing => (nthD st.items ing.itemIdx default).name == itemName)
              r.ingredients with
          | some k =>
            setNth r.ingredients k { nthD r.ingredients k default with amount := amount }
          | none => r.ingredients ++ [⟨ii, amount⟩]
        let m1 := { m with recipes := setNth m.recipes ri { r with ingredients := ingredients' } }
        let m2 := recostRecipeAt st.items m1 ri
        .ok ({ st with menus := setNth st.menus mi m2 }, nthD m2.recipes ri default)

/-! ### The extraction pipeline (`parseAndAddRecipe`, line 490)

The raw LLM response is scanned for a JSON span with the regex
`/\{[\s\S]*\}/` (first `{` to last `}`, greedy), parsed with
`JSON.parse`, and the parsed value is then validated and integrated.  A
parsed JavaScript value is modelled by `JValue`. -/

/-- A JavaScript value obtained from `JSON.parse`. -/
inductive JValue where
  | null
  | bool (b : Bool)
  | num (q : ℚ)
  | str (s : String)
  | arr (elems : List JValue)
  | obj (fields : List (String × JValue))

/-- Property access `v[k]` on a parsed value; `none` models `undefined`.
`JSON.parse` keeps the last of duplicate keys, hence the reversed
search. -/
def jGet (v : JValue) (k : String) : Option JValue :=
  match v with
  | .obj fields => (fields.reverse.find? (fun p => p.1 == k)).map (·.2)
  | _ => none

/-- JavaScript truthiness of `v[k]` (with `undefined` falsy): this is
what the `!parsed.name || …` required-field check actually tests. -/
def jTruthy : Option JValue → Bool
  | none => false
  | some .null => false
  | some (.bool b) => b
  | some (.num q) => q != 0
  | some (.str s) => !s.isEmpty
  | some (.arr _) => true
  | some (.obj _) => true

/-- Coercion of a parsed value into the `String` fields of `Recipe`.
Reachable inputs in the embedded claims are always strings; for other
values JS would store the raw value, rendered here via its display
form. -/
def jCoerceStr : Option JValue → String
  | some (.str s) => s
  | some (.num q) => toString q
  | some (.bool b) => if b then "true" else "false"
  | _ => ""

/-- Coercion of a parsed value into the numeric fields.  Reachable inputs
in the embedded claims are always numbers; for other values JS would
store the raw value and produce `NaN` at cost time, which no claim
exercises — modelled as `0`. -/
def jCoerceNum : Option JValue → ℚ
  | some (.num q) => q
  | _ => 0

/-- `responseText.match(/\{[\s\S]*\}/)` (line 492): the span from the
first `{` to the last `}`, provided that `}` comes after that `{`. -/
def jsonSpan (s : String) : Option String :=
  match s.data.dropWhile (fun c => c ≠ '{') with
  | [] => none
  | c :: tail =>
    let upto := (tail.reverse.dropWhile (fun c => c ≠ '}')).reverse
    if upto.isEmpty then none else some ⟨c :: upto⟩

/-- Whether the raw text contains a `{…}` span at all, i.e. a `}`
somewhere after the first `{`; exactly when `jsonSpan` finds a match. -/
def hasSpanChars (s : String) : Bool :=
  match s.data.dropWhile (fun c => c ≠ '{') with
  | [] => false
  | _ :: tail => tail.any (fun c => c == '}')

/-! #### A small JSON parser modelling `JSON.parse`

Fuel-based recursive descent.  The numeric grammar is slightly lenient
(leading zeros are accepted); no claim depends on `JSON.parse`'s exact
failure set, only on the post-parse validation, so the parser is used
solely to make `parseAndAddRecipe` a complete function of the raw text. -/

/-- JSON whitespace. -/
def skipWs (cs : List Char) : List Char :=
  cs.dropWhile (fun c => c == ' ' || c == '\n' || c == '\t' || c == '\r')

/-- Decimal digit value. -/
def digitVal (c : Char) : ℕ := c.toNat - '0'.toNat

/-- Parse a run of decimal digits. -/
def parseDigits : List Char → ℕ → ℕ × ℕ × List Char
  | c :: rest, acc =>
    if c.isDigit then
      let (n, len, rem) := parseDigits rest (acc * 10 + digitVal c)
      (n, len + 1, rem)
    else (acc, 0, c :: rest)
  | [], acc => (acc, 0, [])

/-- Parse a JSON number after an optional leading minus sign. -/
def parseNumBody (cs : List Char) : Option (ℚ × List Char) :=
  match cs with
  | c :: _ =>
    if c.isDigit then
      let (ip, _, rest1) := parseDigits cs 0
      let (frac, rest2) :=
        match rest1 with
        | '.' :: d :: more =>
          if d.isDigit then
            let (fp, flen, rem) := parseDigits (d :: more) 0
            (((fp : ℚ) / ((10 : ℚ) ^ (flen : ℕ))), rem)
          else ((0 : ℚ), rest1)
        | _ => ((0 : ℚ), rest1)
      let base : ℚ := (ip : ℚ) + frac
      match rest2 with
      | e :: more =>
        if e == 'e' || e == 'E' then
          let (esign, more2) :=
            match more with
            | '-' :: m => (true, m)
            | '+' :: m => (false, m)
            | _ => (false, more)
          match more2 with
          | d :: _ =>
            if d.isDigit then
              let (ex, _, rem) := parseDigits more2 0
              if esign then some (base / ((10 : ℚ) ^ ex), rem)
              else some (base * ((10 : ℚ) ^ ex), rem)
            else none
          | [] => none
        else some (base, rest2)
      | [] => some (base, [])
    else none
  | [] => none

/-- Parse the body of a JSON string literal (after the opening quote),
handling the standard escapes. -/
def parseStrBody : ℕ → List Char → Option (List Char × List Char)
  | 0, _ => none
  | _, [] => none
  | fuel + 1, c :: rest =>
    if c == '"' then some ([], rest)
    else if c == '\\' then
      match rest with
      | e :: more =>
        let esc : Option (Char × List Char) :=
          if e == '"' then some ('"', more)
          else if e == '\\' then some ('\\', more)
          else if e == '/' then some ('/', more)
          else if e == 'n' then some ('\n', more)
          else if e == 't' then some ('\t', more)
          else if e == 'r' then some ('\r', more)
          else if e == 'b' then some (Char.ofNat 8, more)
          else if e == 'f' then some (Char.ofNat 12, more)
          else if e == 'u' then
            match more with
            | h1 :: h2 :: h3 :: h4 :: m4 =>
              let hv := fun (h : Char) =>
                if h.isDigit then some (digitVal h)
                else if 'a' ≤ h && h ≤ 'f' then some (h.toNat - 'a'.toNat + 10)
                else if 'A' ≤ h && h ≤ 'F' then some (h.toNat - 'A'.toNat + 10)
                else none
              match hv h1, hv h2, hv h3, hv h4 with
              | some a, some b, some cc, some d =>
                some (Char.ofNat (((a * 16 + b) * 16 + cc) * 16 + d), m4)
              | _, _, _, _ => none
            | _ => none
          else none
        match esc with
        | some (ch, rem) =>
          match parseStrBody fuel rem with
          | some (tailChars, rem') => some (ch :: tailChars, rem')
          | none => none
        | none => none
      | [] => none
    else
      match parseStrBody fuel rest with
      | some (tailChars, rem) => some (c :: tailChars, rem)
      | none => none

mutual

/-- Parse one JSON value. -/
def parseVal : ℕ → List Char → Option (JValue × List Char)
  | 0, _ => none
  | fuel + 1, cs =>
    match skipWs cs with
    | [] => none
    | c :: rest =>
      if c == '{' then
        match skipWs rest with
        | '}' :: rem => some (.obj [], rem)
        | _ => match parseMembers fuel rest with
          | some (fields, rem) => some (.obj fields, rem)
          | none => none
      else if c == '[' then
        match skipWs rest with
        | ']' :: rem => some (.arr [], rem)
        | _ => match parseElems fuel rest with
          | some (elems, rem) => some (.arr elems, rem)
          | none => none
      else if c == '"' then
        match parseStrBody (rest.length + 1) rest with
        | some (chars, rem) => some (.str ⟨chars⟩, rem)
        | none => none
      else if c == 't' then
        match rest with
        | 'r' :: 'u' :: 'e' :: rem => some (.bool true, rem)
        | _ => none
      else if c == 'f' then
        match rest with
        | 'a' :: 'l' :: 's' :: 'e' :: rem => some (.bool false, rem)
        | _ => none
      else if c == 'n' then
        match rest with
        | 'u' :: 'l' :: 'l' :: rem => some (.null, rem)
        | _ => none
      else if c == '-' then
        match parseNumBody rest with
        | some (q, rem) => some (.num (-q), rem)
        | none => none
      else
        match parseNumBody (c :: rest) with
        | some (q, rem) => some (.num q, rem)
        | none => none

/-- Parse the members of an object, starting after `{`; consumes the
closing `}`. -/
def parseMembers : ℕ → List Char → Option (List (String × JValue) × List Char)
  | 0, _ => none
  | fuel + 1, cs =>
    match skipWs cs with
    | '"' :: rest =>
      match parseStrBody (rest.length + 1) rest with
      | some (keyChars, rem) =>
        match skipWs rem with
        | ':' :: rem2 =>
          match parseVal fuel rem2 with
          | some (v, rem3) =>
            match skipWs rem3 with
            | ',' :: rem4 =>
              match parseMembers fuel rem4 with
              | some (fields, rem5) => some ((⟨keyChars⟩, v) :: fields, rem5)
              | none => none
            | '}' :: rem4 => some ([(⟨keyChars⟩, v)], rem4)
            | _ => none
          | none => none
        | _ => none
      | none => none
    | _ => none

/-- Parse the elements of an array, starting after `[`; consumes the
closing `]`. -/
def parseElems : ℕ → List Char → Option (List JValue × List Char)
  | 0, _ => none
  | fuel + 1, cs =>
    match parseVal fuel cs with
    | some (v, rem) =>
      match skipWs rem with
      | ',' :: rem2 =>
        match parseElems fuel rem2 with
        | some (elems, rem3) => some (v :: elems, rem3)
        | none => none
      | ']' :: rem2 => some ([v], rem2)
      | _ => none
    | none => none

end

/-- `JSON.parse` on the extracted span: the whole input (up to trailing
whitespace) must parse as one value. -/
def jsonParse (s : String) : Option JValue :=
  match parseVal (2 * s.length + 4) s.data with
  | some (v, rest) => if (skipWs rest).isEmpty then some v else none
  | none => none

/-! #### Validation and integration of the parsed value -/

/-- The required-field check (line 496): JS truthiness of the five
fields, in source order. -/
def requiredFieldsPresent (v : JValue) : Bool :=
  jTruthy (jGet v "name") && jTruthy (jGet v "instructions")
    && jTruthy (jGet v "servingQuantity") && jTruthy (jGet v "dishType")
    && jTruthy (jGet v "ingredients")

/-- `ing.name.split(' ').pop()?.toLowerCase() ?? ''` (line 504): the
segment after the last space character (splitting on single spaces, not
general whitespace; a trailing space yields the empty segment). -/
def codeCoreToken (s : String) : String :=
  strLower ((jsSplitSpace s).getLastD "")

/-- `for (const ing of parsed.ingredients)`: JS iteration.  Arrays yield
their elements; strings yield their characters as one-character strings;
anything else (reachable here: truthy numbers, `true`, objects) throws a
`TypeError`, modelled as `none`. -/
def ingredientsIter : JValue → Option (List JValue)
  | .arr l => some l
  | .str s => some (s.data.map (fun c => .str ⟨[c]⟩))
  | _ => none

/-- The semantic cross-check loop (lines 500–508): count the ingredients
whose core token is nonempty and occurs in the lowercased instructions.
`none` models the `TypeError` thrown when `ing.name` is not a string. -/
def semanticCount (instrLower : String) : List JValue → Option ℕ
  | [] => some 0
  | ing :: rest =>
    match jGet ing "name" with
    | some (.str s) =>
      (semanticCount instrLower rest).map (fun c =>
        let core := codeCoreToken s
        if core ≠ "" && strIncludes instrLower core then c + 1 else c)
    | _ => none

/-- `ing.name` at integration time (guaranteed a string by the semantic
loop having run first; the default is unreachable). -/
def ingName (ing : JValue) : String := jCoerceStr (jGet ing "name")

/-- `ing.amount` at integration time (see `jCoerceNum`). -/
def ingAmount (ing : JValue) : ℚ := jCoerceNum (jGet ing "amount")

/-- The integration loop (lines 526–532): each ingredient is passed to
`updateIngredient`; a thrown error is caught, warned about, and the loop
continues.  The warned names are accumulated as the report of unresolved
ingredients. -/
def integrateLoop (menuId recipeId : String) :
    MenuManager × List String → List JValue → MenuManager × List String
  | acc, [] => acc
  | (st, warns), ing :: rest =>
    match updateIngredient st menuId recipeId (ingName ing) (ingAmount ing) with
    | .ok (st', _) => integrateLoop menuId recipeId (st', warns) rest
    | .error _ => integrateLoop menuId recipeId (st, warns ++ [ingName ing]) rest

/-- `findMenuById` (line 542) as a value lookup. -/
def findMenu? (st : MenuManager) (menuId : String) : Option Menu :=
  (firstIdx (fun m => m.id == menuId) st.menus).map (fun i => nthD st.menus i default)

/-- `findRecipeById` (line 546) as a value lookup. -/
def findRecipe? (m : Menu) (recipeId : String) : Option Recipe :=
  (firstIdx (fun r => r.id == recipeId) m.recipes).map (fun i => nthD m.recipes i default)

/-- The post-parse part of `parseAndAddRecipe` (lines 496–535): validate
the parsed value, create the recipe, and integrate its ingredients.  On
success the returned recipe is the created one as it stands in the final
state (the JS function returns the mutated object reference), and the
returned list is the warned (unresolved) ingredient names. -/
def processParsed (st : MenuManager) (menuId : String) (parsed : JValue) :
    Except PMError (MenuManager × Recipe × List String) :=
  if requiredFieldsPresent parsed = false then .error .missingFields
  else
    match jGet parsed "instructions" with
    | some (.str instr) =>
      match ingredientsIter ((jGet parsed "ingredients").getD .null) with
      | none => .error .jsTypeError
      | some ings =>
        match semanticCount (strLower instr) ings with
        | none => .error .jsTypeError
        | some mentioned =>
          let pct : ℚ := ((mentioned : ℚ) / (ings.length : ℚ)) * 100
          -- JS: an empty ingredients list yields 0/0 = NaN here, and
          -- `NaN < 75` is false, so the check passes in that case.
          if ings.length ≠ 0 ∧ pct < 75 then .error (.semanticMismatch pct)
          else
            match createRecipe st menuId (jCoerceStr (jGet parsed "name")) instr
                (jCoerceNum (jGet parsed "servingQuantity"))
                (jCoerceStr (jGet parsed "dishType")) 1 with
            | .error e => .error e
            | .ok (st1, r0) =>
              let res := integrateLoop menuId r0.id (st1, []) ings
              let rF := ((findMenu? res.1 menuId).bind (fun m => findRecipe? m r0.id)).getD r0
              .ok (res.1, rF, res.2)
    | _ => .error .jsTypeError

/-- `parseAndAddRecipe` (line 490): locate the JSON span, parse it, and
process the parsed value.  Every error path returns before any state
mutation, so an `Except.error` result leaves the manager unchanged. -/
def parseAndAddRecipe (st : MenuManager) (menuId : String)
    (responseText : String) : Except PMError (MenuManager × Recipe × List String) :=
  match jsonSpan responseText with
  | none => .error .noStructuredData
  | some span =>
    match jsonParse span with
    | none => .error .malformedData
    | some parsed => processParsed st menuId parsed

instance : Inhabited MenuManager := ⟨⟨[], [], 1⟩⟩

/-- Modelled from the spec's words for the semantic cross-check ("take
its last whitespace-delimited token, lowercase it"): whitespace
tokenization dropping empty segments, then the last token.  Used only to
compare the spec's tokenization with the code's `codeCoreToken`. -/
def specLastTokenLower (s : String) : String :=
  strLower ((((splitChars (fun c => c.isWhitespace) s.data).map
    (fun cs => (⟨cs⟩ : String))).filter (fun t => !t.isEmpty)).getLastD "")

/-- The ingredient lines the integration loop produces: one line per
extracted ingredient whose name resolves against the catalog, in order. -/
def resolvedLines (items : List Item) (l : List JValue) : List Ingredient :=
  l.filterMap (fun ing =>
    (findItemIdxByName items (ingName ing)).map (fun ii => ⟨ii, ingAmount ing⟩))

/-- The extracted ingredient names that do not resolve against the
catalog, in order — the integration loop's warning report. -/
def unresolvedNames (items : List Item) (l : List JValue) : List String :=
  l.filterMap (fun ing =>
    match findItemIdxByName items (ingName ing) with
    | some _ => none
    | none => some (ingName ing))

/-- A catalog with flour at price 3 for a pack of 5, and one menu holding
one empty recipe (the spec's Scenario A). -/
def scenarioASt : MenuManager :=
  ⟨[⟨"menu-1", "Lunch", "2024-01-01",
      [⟨"recipe-2", "Stew", "Cook.", 2, "Starch", 1, [], 0⟩], 0⟩],
    [⟨"flour", 3, 5, "lbs", "Store", false⟩], 3⟩

/-- The state and recipe produced by `updateIngredient` on Scenario A. -/
def scenarioAOut : MenuManager × Recipe :=
  (updateIngredient scenarioASt "menu-1" "recipe-2" "flour" 2).toOption.getD default

/-- The empty manager state. -/
def emptySt : MenuManager := ⟨[], [], 1⟩

/-- The state after entering item "Flour" into the empty manager. -/
def c8St1 : MenuManager :=
  ((enterItem emptySt "Flour" 3 5 "lbs" "Store").toOption.getD default).1

/-- A catalog whose single item is stored under the name "Flour", and one
menu holding one empty recipe. -/
def caseCollisionSt : MenuManager :=
  ⟨[⟨"menu-1", "Lunch", "2024-01-01",
      [⟨"recipe-2", "Stew", "Cook.", 2, "Starch", 1, [], 0⟩], 0⟩],
    [⟨"Flour", 3, 5, "lbs", "Store", false⟩], 3⟩

/-- The state after `updateIngredient … "flour" 2` on `caseCollisionSt`
(the lowercase call resolves to the item stored as "Flour"). -/
def caseCollisionSt1 : MenuManager :=
  ((updateIngredient caseCollisionSt "menu-1" "recipe-2" "flour" 2).toOption.getD default).1

/-- The result of the second, differently-cased call
`updateIngredient … "FLOUR" 3` on `caseCollisionSt1`. -/
def c3Out : MenuManager × Recipe :=
  (updateIngredient caseCollisionSt1 "menu-1" "recipe-2" "FLOUR" 3).toOption.getD default

/-- A manager with one empty menu "menu-1" and an empty catalog. -/
def oneMenuSt : MenuManager := ⟨[⟨"menu-1", "Lunch", "2024-01-01", [], 0⟩], [], 1⟩

/-- A parsed value whose `servingQuantity` is present but `0`. -/
def c10V : JValue :=
  .obj [("name", .str "Cake"), ("instructions", .str "mix the flour"),
    ("servingQuantity", .num 0), ("dishType", .str "Desert"),
    ("ingredients", .arr [.obj [("name", .str "flour"), ("amount", .num 1)]])]

/-- A parsed value whose five required fields are all truthy but whose
`ingredients` is the empty list. -/
def c5V : JValue :=
  .obj [("name", .str "Cake"), ("instructions", .str "mix well"),
    ("servingQuantity", .num 4), ("dishType", .str "Desert"),
    ("ingredients", .arr [])]

/-- The single extracted ingredient of the C4 scenario: its name carries
a trailing space, so the code's space-split yields an empty last
segment. -/
def c4L : List JValue := [.obj [("name", .str "rubber "), ("amount", .num 1)]]

/-- A parsed value whose ingredient name ends in a space while the
instructions do mention the ingredient's real last token. -/
def c4V : JValue :=
  .obj [("name", .str "Tire Soup"), ("instructions", .str "mix the rubber well"),
    ("servingQuantity", .num 2), ("dishType", .str "Starch"),
    ("ingredients", .arr c4L)]

/-- The per-recipe effect of a recost pass: rewrite `dishPrice` from the
current ingredient lines (proof-layer shorthand for the update performed
by `recostRecipeAt`). -/
def recostMap (items : List Item) (r : Recipe) : Recipe :=
  { r with dishPrice := dishSum items r }

/-- A manager whose single menu holds one costed recipe using the flour
item (dishPrice 6/5 at price 3, pack 5, amount 2). -/
def c2St : MenuManager :=
  ⟨[⟨"menu-1", "Lunch", "2024-01-01",
      [⟨"recipe-2", "Stew", "Cook.", 2, "Starch", 1, [⟨0, 2⟩], 6/5⟩], 6/5⟩],
    [⟨"flour", 3, 5, "lbs", "Store", false⟩], 3⟩

/-- The `updates` argument raising flour's pack price to 10. -/
def c2Upd : ItemUpdates := { price := some 10 }

/-- The state and item produced by `updateItem` on `c2St`. -/
def c2Out : MenuManager × Item :=
  (updateItem c2St "flour" c2Upd).toOption.getD default

/-- One extracted `{name, amount}` ingredient record. -/
def mkIng (nm : String) (amt : ℚ) : JValue :=
  .obj [("name", .str nm), ("amount", .num amt)]

/-- The catalog of the Scenario D witness: six items a–f. -/
def c7Items : List Item :=
  [⟨"a", 2, 1, "u", "s", false⟩, ⟨"b", 3, 1, "u", "s", false⟩,
   ⟨"c", 4, 1, "u", "s", false⟩, ⟨"d", 5, 1, "u", "s", false⟩,
   ⟨"e", 6, 1, "u", "s", false⟩, ⟨"f", 7, 1, "u", "s", false⟩]

/-- A manager with one empty menu and the six-item catalog. -/
def c7St : MenuManager := ⟨[⟨"menu-1", "Lunch", "2024-01-01", [], 0⟩], c7Items, 1⟩

/-- Ten extracted ingredients a–j: six resolve against `c7Items`, four
(g–j) do not. -/
def c7L : List JValue :=
  [mkIng "a" 1, mkIng "b" 2, mkIng "c" 1, mkIng "d" 3, mkIng "e" 1,
   mkIng "f" 2, mkIng "g" 1, mkIng "h" 1, mkIng "i" 1, mkIng "j" 1]

/-- The Scenario D candidate: all ten core tokens occur in the
instructions, so the semantic check passes. -/
def c7V : JValue :=
  .obj [("name", .str "Ten Things"), ("instructions", .str "a b c d e f g h i j"),
    ("servingQuantity", .num 4), ("dishType", .str "Starch"),
    ("ingredients", .arr c7L)]

/-- The state, recipe and warning report produced on Scenario D. -/
def c7Out : MenuManager × Recipe × List String :=
  (processParsed c7St "menu-1" c7V).toOption.getD default

/-! ### Helper lemmas about the list primitives -/

theorem firstIdx_lt {p : α → Bool} :
    ∀ {l : List α} {i}, firstIdx p l = some i → i < l.length := by
  intro l
  induction l with
  | nil => intro i h; simp [firstIdx] at h
  | cons a as ih =>
    intro i h
    simp only [firstIdx] at h
    by_cases hp : p a = true
    · simp only [if_pos hp, Option.some.injEq] at h
      simp [← h]
    · simp only [if_neg hp, Option.map_eq_some'] at h
      obtain ⟨j, hj, rfl⟩ := h
      have := ih hj
      simp only [List.length_cons]
      omega

theorem firstIdx_pred {p : α → Bool} (d : α) :
    ∀ {l : List α} {i}, firstIdx p l = some i → p (nthD l i d) = true := by
  intro l
  induction l with
  | nil => intro i h; simp [firstIdx] at h
  | cons a as ih =>
    intro i h
    simp only [firstIdx] at h
    by_cases hp : p a = true
    · simp [hp] at h
      subst h
      simpa [nthD] using hp
    · simp [hp] at h
      obtain ⟨j, hj, rfl⟩ := h
      simpa [nthD] using ih hj

theorem firstIdx_none {p : α → Bool} :
    ∀ {l : List α}, (∀ a ∈ l, p a = false) → firstIdx p l = none := by
  intro l
  induction l with
  | nil => intro _; rfl
  | cons a as ih =>
    intro h
    have ha := h a (by simp)
    simp [firstIdx, ha, ih (fun x hx => h x (by simp [hx]))]

theorem firstIdx_append_singleton {p : α → Bool} {l : List α}
    (h : firstIdx p l = none) {x : α} (hx : p x = true) :
    firstIdx p (l ++ [x]) = some l.length := by
  induction l with
  | nil => simp [firstIdx, hx]
  | cons a as ih =>
    simp only [firstIdx, List.cons_append] at h ⊢
    by_cases hp : p a = true
    · simp [hp] at h
    · simp only [if_neg hp, Option.map_eq_none'] at h
      simp [if_neg hp, ih h]

theorem length_setNth : ∀ (l : List α) (i : ℕ) (x : α),
    (setNth l i x).length = l.length := by
  intro l
  induction l with
  | nil => intro i x; rfl
  | cons a as ih =>
    intro i x
    cases i with
    | zero => rfl
    | succ n => simp [setNth, ih]

theorem nthD_setNth_self : ∀ {l : List α} {i : ℕ} (x d : α),
    i < l.length → nthD (setNth l i x) i d = x := by
  intro l
  induction l with
  | nil => intro i x d h; simp at h
  | cons a as ih =>
    intro i x d h
    cases i with
    | zero => rfl
    | succ n =>
      simp only [setNth, nthD]
      exact ih x d (by simpa using h)

theorem setNth_setNth : ∀ (l : List α) (i : ℕ) (x y : α),
    setNth (setNth l i x) i y = setNth l i y := by
  intro l
  induction l with
  | nil => intro i x y; rfl
  | cons a as ih =>
    intro i x y
    cases i with
    | zero => rfl
    | succ n => simp [setNth, ih]

theorem firstIdx_setNth {p : α → Bool} :
    ∀ {l : List α} {i : ℕ}, firstIdx p l = some i → ∀ {x : α}, p x = true →
      firstIdx p (setNth l i x) = some i := by
  intro l
  induction l with
  | nil => intro i h; simp [firstIdx] at h
  | cons a as ih =>
    intro i h x hx
    simp only [firstIdx] at h ⊢
    by_cases hp : p a = true
    · simp only [if_pos hp, Option.some.injEq] at h
      subst h
      simp [setNth, firstIdx, hx]
    · simp only [if_neg hp, Option.map_eq_some'] at h
      obtain ⟨j, hj, rfl⟩ := h
      simp [setNth, firstIdx, hp, ih hj hx]

theorem nthD_append_of_length : ∀ (A B : List α) (d : α),
    nthD (A ++ B) A.length d = nthD B 0 d := by
  intro A
  induction A with
  | nil => intro B d; rfl
  | cons a as ih => intro B d; simpa [nthD] using ih B d

theorem setNth_append_of_length : ∀ (A B : List α) (x : α),
    setNth (A ++ B) A.length x = A ++ setNth B 0 x := by
  intro A
  induction A with
  | nil => intro B x; rfl
  | cons a as ih => intro B x; simp [setNth, ih]

theorem nthD_drop : ∀ (l : List α) (k : ℕ) (d : α),
    nthD (l.drop k) 0 d = nthD l k d := by
  intro l
  induction l with
  | nil => intro k d; cases k <;> rfl
  | cons a as ih =>
    intro k d
    cases k with
    | zero => rfl
    | succ n => simpa [nthD] using ih n d

theorem drop_eq_cons_nthD : ∀ (l : List α) (k : ℕ) (d : α), k < l.length →
    l.drop k = nthD l k d :: l.drop (k + 1) := by
  intro l
  induction l with
  | nil => intro k d h; simp at h
  | cons a as ih =>
    intro k d h
    cases k with
    | zero => rfl
    | succ n =>
      simp only [List.drop, nthD]
      exact ih n d (by simpa using h)

theorem take_succ_nthD : ∀ (l : List α) (k : ℕ) (d : α), k < l.length →
    l.take (k + 1) = l.take k ++ [nthD l k d] := by
  intro l
  induction l with
  | nil => intro k d h; simp at h
  | cons a as ih =>
    intro k d h
    cases k with
    | zero => rfl
    | succ n =>
      simp only [List.take, nthD, List.cons_append]
      rw [ih n d (by simpa using h)]

/-- `dishSum` reads only the ingredient lines and the scaling factor, so
overwriting `dishPrice` does not change it. -/
theorem dishSum_set_dishPrice (items : List Item) (r : Recipe) (x : ℚ) :
    dishSum items { r with dishPrice := x } = dishSum items r := rfl

/-! ### C1: recompute-after-write invariant of `updateIngredient` -/

/-- C1: immediately after a successful `updateIngredient` call, the
updated recipe's `dishPrice` equals
`Σ lines (item.price / item.quantity) * line.amount * scalingFactor`
(`dishSum`), and the owning menu's `menuCost` equals the sum of
`dishPrice` over all of that menu's recipes (`sumPrices`). -/
theorem c1_setIngredient_recost_invariant (st : MenuManager)
    (menuId recipeId itemName : String) (amt : ℚ) (st' : MenuManager)
    (r' : Recipe)
    (h : updateIngredient st menuId recipeId itemName amt = .ok (st', r')) :
    r'.dishPrice = dishSum st'.items r' ∧
    ∃ m', findMenu? st' menuId = some m' ∧ findRecipe? m' recipeId = some r' ∧
      m'.menuCost = sumPrices m'.recipes := by
  cases hmi : firstIdx (fun m => m.id == menuId) st.menus with
  | none => simp [updateIngredient, hmi] at h
  | some mi =>
  cases hri : firstIdx (fun r => r.id == recipeId)
      (nthD st.menus mi default).recipes with
  | none => simp [updateIngredient, hmi, hri] at h
  | some ri =>
  cases hii : findItemIdxByName st.items itemName with
  | none => simp [updateIngredient, hmi, hri, hii] at h
  | some ii =>
  simp only [updateIngredient, hmi, hri, hii] at h
  set m := nthD st.menus mi default with hm
  set r := nthD m.recipes ri default with hr
  have hmiLt : mi < st.menus.length := firstIdx_lt hmi
  have hriLt : ri < m.recipes.length := firstIdx_lt hri
  set ings' := (match firstIdx
      (fun ing => (nthD st.items ing.itemIdx default).name == itemName)
      r.ingredients with
    | some k => setNth r.ingredients k { nthD r.ingredients k default with amount := amt }
    | none => r.ingredients ++ [(⟨ii, amt⟩ : Ingredient)]) with hings
  set rNew : Recipe := { r with ingredients := ings' } with hrNew
  have hm1 : nthD (setNth m.recipes ri rNew) ri default = rNew :=
    nthD_setNth_self rNew default (by simpa [length_setNth] using hriLt)
  simp only [recostRecipeAt, hm1, setNth_setNth] at h
  set r2 : Recipe := { rNew with dishPrice := dishSum st.items rNew } with hr2
  set rs := setNth m.recipes ri r2 with hrs
  set m2 : Menu := { m with recipes := rs, menuCost := sumPrices rs } with hm2
  have hok := h
  rw [Except.ok.injEq, Prod.mk.injEq] at hok
  obtain ⟨hst', hr'⟩ := hok
  have hr'eq : r' = r2 := by
    rw [← hr']
    exact nthD_setNth_self r2 default (by simpa [length_setNth] using hriLt)
  have hstEq : st' = { st with menus := setNth st.menus mi m2 } := hst'.symm
  constructor
  · rw [hr'eq, hstEq]
    show r2.dishPrice = dishSum st.items r2
    rw [hr2]
    show dishSum st.items rNew = dishSum st.items { rNew with dishPrice := dishSum st.items rNew }
    rw [dishSum_set_dishPrice]
  · refine ⟨m2, ?_, ?_, rfl⟩
    · have hidm : ((m2 : Menu).id == menuId) = true := by
        have := firstIdx_pred default hmi
        simpa [hm2] using this
      rw [hstEq]
      simp only [findMenu?]
      rw [firstIdx_setNth hmi hidm]
      simp [nthD_setNth_self _ default hmiLt]
    · have hidr : ((r2 : Recipe).id == recipeId) = true := by
        have := firstIdx_pred default hri
        simpa [hr2, hrNew] using this
      simp only [findRecipe?, hm2]
      rw [hrs, firstIdx_setNth hri hidr]
      simp [nthD_setNth_self _ default hriLt, hr'eq]

/-- Witness for C1: the Scenario A call succeeds and the invariant holds
on its output. -/
theorem c1_setIngredient_recost_invariant_witness :
    updateIngredient scenarioASt "menu-1" "recipe-2" "flour" 2 =
      .ok (scenarioAOut.1, scenarioAOut.2) ∧
    (scenarioAOut.2.dishPrice = dishSum scenarioAOut.1.items scenarioAOut.2 ∧
      ∃ m', findMenu? scenarioAOut.1 "menu-1" = some m' ∧
        findRecipe? m' "recipe-2" = some scenarioAOut.2 ∧
        m'.menuCost = sumPrices m'.recipes) :=
  ⟨by decide,
    c1_setIngredient_recost_invariant scenarioASt "menu-1" "recipe-2" "flour" 2
      scenarioAOut.1 scenarioAOut.2 (by decide)⟩

/-! ### C8: case-insensitive uniqueness of catalog names -/

/-- C8: `enterItem` is injective on the lowercased name — after a
successful `enterItem` for `n1`, a second `enterItem` for any `n2` with
the same lowercasing (e.g. differing only by case) fails with
`duplicateItem`, leaving the catalog unchanged (an error carries no new
state in this embedding, mirroring that the source throws before any
mutation). -/
theorem c8_enter_duplicate_case_insensitive (st : MenuManager)
    (n1 n2 : String) (p q : ℚ) (u s : String) (p' q' : ℚ) (u' s' : String)
    (st' : MenuManager) (it : Item)
    (hcase : strLower n1 = strLower n2)
    (h : enterItem st n1 p q u s = .ok (st', it)) :
    enterItem st' n2 p' q' u' s' = .error (.duplicateItem n2) := by
  cases hfind : findItemIdxByName st.items n1 with
  | some i => simp [enterItem, hfind] at h
  | none =>
    simp only [enterItem, hfind] at h
    rw [Except.ok.injEq, Prod.mk.injEq] at h
    obtain ⟨hst', -⟩ := h
    have hitems : st'.items = st.items ++ [⟨n1, p, q, u, s, false⟩] := by
      rw [← hst']
    have hfound : findItemIdxByName st'.items n2 = some st.items.length := by
      rw [hitems]
      unfold findItemIdxByName at hfind ⊢
      rw [← hcase]
      exact firstIdx_append_singleton hfind (by simp)
    simp [enterItem, hfound]

/-- Witness for C8: "Flour" then "FLOUR" on the empty manager. -/
theorem c8_enter_duplicate_case_insensitive_witness :
    strLower "Flour" = strLower "FLOUR" ∧
    enterItem emptySt "Flour" 3 5 "lbs" "Store" =
      .ok (c8St1, ⟨"Flour", 3, 5, "lbs", "Store", false⟩) ∧
    enterItem c8St1 "FLOUR" 2 4 "lbs" "Shop" = .error (.duplicateItem "FLOUR") :=
  ⟨by decide, by decide,
    c8_enter_duplicate_case_insensitive emptySt "Flour" "FLOUR" 3 5 "lbs" "Store"
      2 4 "lbs" "Shop" c8St1 ⟨"Flour", 3, 5, "lbs", "Store", false⟩
      (by decide) (by decide)⟩

/-! ### C9: the catalog does not validate pack quantities -/

/-- C9 (failing input): `enterItem` performs no validation of the pack
quantity — entering an item with `quantity = 0` into the empty manager
succeeds, so the invariant "packQuantity > 0 for every item reachable
through enter and update" claimed by the spec does not hold, and
`dishSum` for such an item divides by zero (`Infinity`/`NaN` in JS). -/
theorem c9_enter_accepts_nonpositive_pack :
    enterItem emptySt "flour" 3 0 "lbs" "Store" =
      .ok (⟨[], [⟨"flour", 3, 0, "lbs", "Store", false⟩], 1⟩,
        ⟨"flour", 3, 0, "lbs", "Store", false⟩) := by decide

/-! ### C3: overwrite-or-append behaviour of `updateIngredient` -/

/-- C3 (counterexample): resolution is case-insensitive but the
overwrite check `ing.item.name === itemName` is case-sensitive, so two
calls naming the same catalog item with different casings produce two
ingredient lines for that one distinct item (`itemIdx = 0` twice), with
the second call appending instead of overwriting — refuting "at most one
ingredient line per distinct catalog item". -/
theorem c3_counterexample :
    exceptOk (updateIngredient caseCollisionSt1 "menu-1" "recipe-2" "FLOUR" 3) = true ∧
    c3Out.2.ingredients.map (fun ing => (ing.itemIdx, ing.amount)) = [(0, 2), (0, 3)] :=
  ⟨by decide, by decide⟩

/-- C3 (amended): a successful `updateIngredient` overwrites the amount
of the first existing line whose item's *stored* name exactly equals the
passed `itemName`, and otherwise appends a new line for the
case-insensitively resolved item; uniqueness per distinct catalog item
therefore holds only when calls use the item's stored name verbatim. -/
theorem c3_amended_exact_name_overwrite (st : MenuManager)
    (menuId recipeId itemName : String) (amt : ℚ) (st' : MenuManager)
    (r' : Recipe)
    (h : updateIngredient st menuId recipeId itemName amt = .ok (st', r')) :
    ∃ mi ri ii,
      firstIdx (fun m => m.id == menuId) st.menus = some mi ∧
      firstIdx (fun r => r.id == recipeId) (nthD st.menus mi default).recipes = some ri ∧
      findItemIdxByName st.items itemName = some ii ∧
      (let r := nthD (nthD st.menus mi default).recipes ri default
       match firstIdx (fun ing => (nthD st.items ing.itemIdx default).name == itemName)
           r.ingredients with
       | some k => r'.ingredients =
           setNth r.ingredients k { nthD r.ingredients k default with amount := amt }
       | none => r'.ingredients = r.ingredients ++ [⟨ii, amt⟩]) := by
  cases hmi : firstIdx (fun m => m.id == menuId) st.menus with
  | none => simp [updateIngredient, hmi] at h
  | some mi =>
  cases hri : firstIdx (fun r => r.id == recipeId)
      (nthD st.menus mi default).recipes with
  | none => simp [updateIngredient, hmi, hri] at h
  | some ri =>
  cases hii : findItemIdxByName st.items itemName with
  | none => simp [updateIngredient, hmi, hri, hii] at h
  | some ii =>
  have hriLt : ri < (nthD st.menus mi default).recipes.length := firstIdx_lt hri
  cases hk : firstIdx
      (fun ing => (nthD st.items ing.itemIdx default).name == itemName)
      (nthD (nthD st.menus mi default).recipes ri default).ingredients with
  | some k =>
    simp only [updateIngredient, hmi, hri, hii, hk, recostRecipeAt] at h
    rw [Except.ok.injEq, Prod.mk.injEq] at h
    obtain ⟨-, hr'⟩ := h
    refine ⟨mi, ri, ii, rfl, hri, rfl, ?_⟩
    simp only [hk]
    rw [← hr', setNth_setNth,
      nthD_setNth_self _ default (by simpa [length_setNth] using hriLt),
      nthD_setNth_self _ default (by simpa [length_setNth] using hriLt)]
  | none =>
    simp only [updateIngredient, hmi, hri, hii, hk, recostRecipeAt] at h
    rw [Except.ok.injEq, Prod.mk.injEq] at h
    obtain ⟨-, hr'⟩ := h
    refine ⟨mi, ri, ii, rfl, hri, rfl, ?_⟩
    simp only [hk]
    rw [← hr', setNth_setNth,
      nthD_setNth_self _ default (by simpa [length_setNth] using hriLt),
      nthD_setNth_self _ default (by simpa [length_setNth] using hriLt)]

/-- Witness for the amended C3: the second, differently-cased call on
`caseCollisionSt1` takes the append branch. -/
theorem c3_amended_exact_name_overwrite_witness :
    updateIngredient caseCollisionSt1 "menu-1" "recipe-2" "FLOUR" 3 =
      .ok (c3Out.1, c3Out.2) ∧
    (∃ mi ri ii,
      firstIdx (fun m => m.id == "menu-1") caseCollisionSt1.menus = some mi ∧
      firstIdx (fun r => r.id == "recipe-2")
        (nthD caseCollisionSt1.menus mi default).recipes = some ri ∧
      findItemIdxByName caseCollisionSt1.items "FLOUR" = some ii ∧
      (let r := nthD (nthD caseCollisionSt1.menus mi default).recipes ri default
       match firstIdx
           (fun ing => (nthD caseCollisionSt1.items ing.itemIdx default).name == "FLOUR")
           r.ingredients with
       | some k => c3Out.2.ingredients =
           setNth r.ingredients k { nthD r.ingredients k default with amount := 3 }
       | none => c3Out.2.ingredients = r.ingredients ++ [⟨ii, 3⟩])) :=
  ⟨by decide,
    c3_amended_exact_name_overwrite caseCollisionSt1 "menu-1" "recipe-2" "FLOUR" 3
      c3Out.1 c3Out.2 (by decide)⟩

/-! ### C10, C5: the truthiness-based required-field check -/

/-- C10: a required field that is present but falsy — `servingQuantity`
equal to `0`, or `name` or `instructions` equal to the empty string — is
rejected as missing, because the check tests JS truthiness rather than
presence; the error is returned before any recipe is created. -/
theorem c10_falsy_required_field_rejected (st : MenuManager)
    (menuId : String) (v : JValue)
    (h : jGet v "name" = some (.str "") ∨
      jGet v "servingQuantity" = some (.num 0) ∨
      jGet v "instructions" = some (.str "")) :
    processParsed st menuId v = .error .missingFields := by
  have hstr : jTruthy (some (.str "")) = false := by decide
  have hnum : jTruthy (some (.num 0)) = false := by decide
  have hreq : requiredFieldsPresent v = false := by
    rcases h with h | h | h <;>
      · unfold requiredFieldsPresent
        rw [h]
        first
          | (rw [hstr]; simp)
          | (rw [hnum]; simp)
  simp [processParsed, hreq]

/-- Witness for C10: `servingQuantity = 0` with all fields present. -/
theorem c10_falsy_required_field_rejected_witness :
    jGet c10V "servingQuantity" = some (.num 0) ∧
    processParsed oneMenuSt "menu-1" c10V = .error .missingFields :=
  ⟨rfl, c10_falsy_required_field_rejected oneMenuSt "menu-1" c10V
    (Or.inr (Or.inl rfl))⟩

/-- `createRecipe` can only fail with `menuNotFound`. -/
theorem createRecipe_error_eq (st : MenuManager) (menuId n i : String)
    (sq : ℚ) (dt : String) (sf : ℚ) (e : PMError)
    (h : createRecipe st menuId n i sq dt sf = .error e) :
    e = .menuNotFound menuId := by
  unfold createRecipe at h
  cases hmi : firstIdx (fun m => m.id == menuId) st.menus with
  | none =>
    rw [hmi] at h
    simp at h
    exact h.symm
  | some mi => rw [hmi] at h; simp at h

/-- C5 (counterexample): the required-field check is only a truthiness
test — a parsed value whose `ingredients` is the *empty* list (not "a
non-empty list of records") passes the check, then the semantic check
also passes because `0/0` is `NaN` in JS and `NaN < 75` is false, and
the extraction is accepted rather than rejected with a missing-field
reason. -/
theorem c5_counterexample :
    requiredFieldsPresent c5V = true ∧
    jGet c5V "ingredients" = some (.arr []) ∧
    exceptOk (processParsed oneMenuSt "menu-1" c5V) = true :=
  ⟨by decide, rfl, by decide⟩

/-- When the five required fields are all truthy, no later step of
`processParsed` can produce the missing-field error. -/
theorem processParsed_ne_missing (st : MenuManager) (menuId : String)
    (v : JValue) (hreq : requiredFieldsPresent v = true) :
    processParsed st menuId v ≠ .error .missingFields := by
  unfold processParsed
  rw [hreq]
  rw [if_neg (by simp)]
  cases hi : jGet v "instructions" with
  | none => simp
  | some jv =>
    cases jv with
    | null => simp
    | bool b => simp
    | num q => simp
    | arr l => simp
    | obj fs => simp
    | str instr =>
      simp only []
      cases hit : ingredientsIter ((jGet v "ingredients").getD JValue.null) with
      | none => simp
      | some ings =>
        simp only []
        cases hc : semanticCount (strLower instr) ings with
        | none => simp
        | some mentioned =>
          simp only []
          by_cases hth : ings.length ≠ 0 ∧
              ((mentioned : ℚ) / (ings.length : ℚ)) * 100 < 75
          · rw [if_pos hth]; simp
          · rw [if_neg hth]
            cases hcr : createRecipe st menuId (jCoerceStr (jGet v "name"))
                instr (jCoerceNum (jGet v "servingQuantity"))
                (jCoerceStr (jGet v "dishType")) 1 with
            | error e =>
              rw [createRecipe_error_eq st menuId _ _ _ _ _ e hcr]
              simp
            | ok pr => simp

/-- C5 (amended): `processParsed` rejects with the missing-field reason
exactly when one of the five required fields is absent or falsy under JS
truthiness; the shape of `ingredients` is not validated by this check
(an empty list, a string or a number all pass it). -/
theorem c5_amended_truthiness_check (st : MenuManager) (menuId : String)
    (v : JValue) :
    processParsed st menuId v = .error .missingFields ↔
      requiredFieldsPresent v = false := by
  constructor
  · intro h
    cases hreq : requiredFieldsPresent v with
    | false => rfl
    | true => exact absurd h (processParsed_ne_missing st menuId v hreq)
  · intro h
    simp [processParsed, h]

/-! ### C6: no structured data in the raw text -/

/-- If no `}` follows the first `{` of the raw text, the span regex does
not match. -/
theorem jsonSpan_none_of_no_span (s : String) (h : hasSpanChars s = false) :
    jsonSpan s = none := by
  unfold hasSpanChars at h
  unfold jsonSpan
  cases hd : s.data.dropWhile (fun c => c ≠ '{') with
  | nil => rfl
  | cons c tail =>
    rw [hd] at h
    have hany : tail.any (fun c => c == '}') = false := h
    have hmem : ∀ x ∈ tail, ¬(x = '}') := by
      intro x hx hcontra
      have : tail.any (fun c => c == '}') = true :=
        List.any_eq_true.mpr ⟨x, hx, by simp [hcontra]⟩
      rw [this] at hany
      cases hany
    have hdrop : List.dropWhile (fun c => decide (c ≠ '}')) tail.reverse = [] := by
      rw [List.dropWhile_eq_nil_iff]
      intro x hx
      rw [List.mem_reverse] at hx
      simpa using hmem x hx
    simp [hdrop]
    exact fun hx => hmem '}' hx rfl

/-- C6: a raw extraction text containing no `{…}` span is rejected with
`noStructuredData` before any recipe is created — the error is returned
before any state mutation, so the menus, catalog and derived costs are
unchanged (an `Except.error` carries no new state in this embedding). -/
theorem c6_no_span_rejected (st : MenuManager) (menuId txt : String)
    (h : hasSpanChars txt = false) :
    parseAndAddRecipe st menuId txt = .error .noStructuredData := by
  simp [parseAndAddRecipe, jsonSpan_none_of_no_span txt h]

/-- Witness for C6: a brace-free raw response. -/
theorem c6_no_span_rejected_witness :
    hasSpanChars "Sorry, I could not find a recipe on that page." = false ∧
    parseAndAddRecipe oneMenuSt "menu-1"
      "Sorry, I could not find a recipe on that page." = .error .noStructuredData :=
  ⟨by decide, c6_no_span_rejected oneMenuSt "menu-1"
    "Sorry, I could not find a recipe on that page." (by decide)⟩

/-! ### C4: the semantic cross-check and its 75% threshold -/

/-- C4 (counterexample): the code's token is the segment after the last
*space* character, and an empty segment counts as unmatched — for the
ingredient name "rubber " (trailing space) the claim's last
whitespace-delimited token is "rubber", which does occur in the
instructions, so the claim says the candidate (all required fields
present) is Accepted; the code instead computes a 0% match and rejects
with `semanticMismatch`. -/
theorem c4_counterexample :
    specLastTokenLower "rubber " = "rubber" ∧
    strIncludes (strLower "mix the rubber well") "rubber" = true ∧
    requiredFieldsPresent c4V = true ∧
    processParsed oneMenuSt "menu-1" c4V = .error (.semanticMismatch 0) :=
  ⟨by decide, by decide, by decide, by decide⟩

/-- C4 (amended): with the code's tokenization (`split(' ')`, last
segment, lowercased, empty segment unmatched, substring test against the
lowercased instructions — `semanticCount`), a candidate with all required
fields truthy, a nonempty well-shaped ingredients list and an existing
target menu is rejected with `semanticMismatch` exactly when the
mentioned percentage is below 75, and is accepted otherwise. -/
theorem c4_amended_semantic_threshold (st : MenuManager) (menuId : String)
    (v : JValue) (instr : String) (l : List JValue) (mentioned : ℕ) (mi : ℕ)
    (hreq : requiredFieldsPresent v = true)
    (hin : jGet v "instructions" = some (.str instr))
    (hing : jGet v "ingredients" = some (.arr l))
    (hne : l ≠ [])
    (hcount : semanticCount (strLower instr) l = some mentioned)
    (hmenu : firstIdx (fun m => m.id == menuId) st.menus = some mi) :
    (((mentioned : ℚ) / (l.length : ℚ)) * 100 < 75 →
      processParsed st menuId v =
        .error (.semanticMismatch (((mentioned : ℚ) / (l.length : ℚ)) * 100))) ∧
    (¬ ((mentioned : ℚ) / (l.length : ℚ)) * 100 < 75 →
      exceptOk (processParsed st menuId v) = true) := by
  have hiter : ingredientsIter ((jGet v "ingredients").getD JValue.null) = some l := by
    rw [hing]
    rfl
  unfold processParsed
  rw [hreq, if_neg (by simp), hin]
  simp only []
  rw [hiter]
  simp only []
  rw [hcount]
  simp only []
  have hlen : l.length ≠ 0 := by
    intro h0
    exact hne (List.length_eq_zero.mp h0)
  constructor
  · intro hlt
    rw [if_pos ⟨hlen, hlt⟩]
  · intro hge
    rw [if_neg (fun hand => hge hand.2)]
    have hcr : ∃ st1 r0, createRecipe st menuId (jCoerceStr (jGet v "name"))
        instr (jCoerceNum (jGet v "servingQuantity"))
        (jCoerceStr (jGet v "dishType")) 1 = .ok (st1, r0) := by
      unfold createRecipe
      rw [hmenu]
      exact ⟨_, _, rfl⟩
    obtain ⟨st1, r0, hcr⟩ := hcr
    rw [hcr]
    rfl

/-- Witness for the amended C4: the "rubber " candidate satisfies all
hypotheses and lands on the rejecting side of the threshold. -/
theorem c4_amended_semantic_threshold_witness :
    requiredFieldsPresent c4V = true ∧
    jGet c4V "instructions" = some (.str "mix the rubber well") ∧
    jGet c4V "ingredients" = some (.arr c4L) ∧
    c4L ≠ [] ∧
    semanticCount (strLower "mix the rubber well") c4L = some 0 ∧
    firstIdx (fun m => m.id == "menu-1") oneMenuSt.menus = some 0 ∧
    ((((0 : ℕ) : ℚ) / ((c4L.length : ℕ) : ℚ)) * 100 < 75 →
      processParsed oneMenuSt "menu-1" c4V =
        .error (.semanticMismatch ((((0 : ℕ) : ℚ) / ((c4L.length : ℕ) : ℚ)) * 100))) ∧
    (¬ (((0 : ℕ) : ℚ) / ((c4L.length : ℕ) : ℚ)) * 100 < 75 →
      exceptOk (processParsed oneMenuSt "menu-1" c4V) = true) := by
  refine ⟨by decide, rfl, rfl, by simp [c4L], rfl, rfl, ?_, ?_⟩
  · exact (c4_amended_semantic_threshold oneMenuSt "menu-1" c4V
      "mix the rubber well" c4L 0 0 (by decide) rfl rfl (by simp [c4L]) rfl rfl).1
  · exact (c4_amended_semantic_threshold oneMenuSt "menu-1" c4V
      "mix the rubber well" c4L 0 0 (by decide) rfl rfl (by simp [c4L]) rfl rfl).2

/-! ### C2: a catalog update recosts every menu -/

theorem nthD_append_len {α : Type} {A : List α} {k : ℕ} (hA : A.length = k)
    (B : List α) (d : α) : nthD (A ++ B) k d = nthD B 0 d := by
  subst hA
  exact nthD_append_of_length A B d

theorem setNth_append_len {α : Type} {A : List α} {k : ℕ} (hA : A.length = k)
    (B : List α) (x : α) : setNth (A ++ B) k x = A ++ setNth B 0 x := by
  subst hA
  exact setNth_append_of_length A B x

/-- After processing the first `k` recipes, the pass of
`recalculateAllMenuCosts` over one menu has rewritten exactly those
recipes' `dishPrice`s, and (once at least one recipe was processed) the
menu's `menuCost` from the current recipe list. -/
theorem recalcMenuAux_spec (items : List Item) (m : Menu) :
    ∀ k, k ≤ m.recipes.length →
    ∃ c, recalcMenuAux items m k =
        { m with
          recipes := (m.recipes.take k).map (recostMap items) ++ m.recipes.drop k,
          menuCost := c } ∧
      (0 < k → c = sumPrices
        ((m.recipes.take k).map (recostMap items) ++ m.recipes.drop k)) := by
  intro k
  induction k with
  | zero =>
    intro _
    refine ⟨m.menuCost, ?_, by omega⟩
    simp [recalcMenuAux]
  | succ k ih =>
    intro hk1
    have hklt : k < m.recipes.length := by omega
    obtain ⟨c, heq, -⟩ := ih (by omega)
    have hA : ((m.recipes.take k).map (recostMap items)).length = k := by
      simp [List.length_take]
      omega
    have hr : nthD ((m.recipes.take k).map (recostMap items) ++ m.recipes.drop k)
        k default = nthD m.recipes k default := by
      rw [nthD_append_len hA]
      exact nthD_drop m.recipes k default
    have hset : setNth ((m.recipes.take k).map (recostMap items) ++ m.recipes.drop k)
        k (recostMap items (nthD m.recipes k default)) =
        (m.recipes.take (k + 1)).map (recostMap items) ++ m.recipes.drop (k + 1) := by
      rw [setNth_append_len hA]
      rw [drop_eq_cons_nthD m.recipes k default hklt]
      rw [take_succ_nthD m.recipes k default hklt]
      simp [setNth]
    refine ⟨sumPrices ((m.recipes.take (k + 1)).map (recostMap items)
      ++ m.recipes.drop (k + 1)), ?_, fun _ => rfl⟩
    show recostRecipeAt items (recalcMenuAux items m k) k = _
    rw [heq]
    have hrra : ∀ (M : Menu) (j : ℕ), recostRecipeAt items M j =
        { M with
          recipes := setNth M.recipes j (recostMap items (nthD M.recipes j default)),
          menuCost := sumPrices
            (setNth M.recipes j (recostMap items (nthD M.recipes j default))) } :=
      fun M j => rfl
    rw [hrra]
    dsimp only
    rw [hr, hset]

/-- C2: after any successful `updateItem`, every recipe of every menu has
`dishPrice` equal to the cost sum computed from the *updated* catalog
(so no recipe referencing the item keeps a stale cost), and every
nonempty menu's `menuCost` is the sum of its recipes' prices. -/
theorem c2_updateItem_recosts_all (st : MenuManager) (name : String)
    (u : ItemUpdates) (st' : MenuManager) (it : Item)
    (h : updateItem st name u = .ok (st', it)) :
    ∀ m ∈ st'.menus,
      (∀ r ∈ m.recipes, r.dishPrice = dishSum st'.items r) ∧
      (m.recipes ≠ [] → m.menuCost = sumPrices m.recipes) := by
  cases hfi : findItemIdxByName st.items name with
  | none => simp [updateItem, hfi] at h
  | some i =>
    simp only [updateItem, hfi] at h
    rw [Except.ok.injEq, Prod.mk.injEq] at h
    obtain ⟨hst', -⟩ := h
    subst hst'
    intro m hm
    simp only [recalculateAllMenuCosts, List.mem_map] at hm
    obtain ⟨m0, hm0, rfl⟩ := hm
    obtain ⟨c, heq, hc⟩ :=
      recalcMenuAux_spec (setNth st.items i (applyItemUpdates (nthD st.items i default) u))
        m0 m0.recipes.length le_rfl
    unfold recalcMenu
    rw [heq]
    simp only [List.take_length, List.drop_length, List.append_nil]
    constructor
    · intro r hr
      rw [List.mem_map] at hr
      obtain ⟨r0, hr0, rfl⟩ := hr
      rfl
    · intro hne
      have hlen : 0 < m0.recipes.length := by
        cases hrec : m0.recipes with
        | nil => rw [hrec] at hne; simp at hne
        | cons a as => simp [hrec]
      have := hc hlen
      rw [List.take_length, List.drop_length, List.append_nil] at this
      exact this

/-- Witness for C2: raising flour's price recosts the menu (the recipe's
dishPrice becomes (10/5)*2 = 4). -/
theorem c2_updateItem_recosts_all_witness :
    updateItem c2St "flour" c2Upd = .ok (c2Out.1, c2Out.2) ∧
    (∀ m ∈ c2Out.1.menus,
      (∀ r ∈ m.recipes, r.dishPrice = dishSum c2Out.1.items r) ∧
      (m.recipes ≠ [] → m.menuCost = sumPrices m.recipes)) :=
  ⟨by decide, c2_updateItem_recosts_all c2St "flour" c2Upd c2Out.1 c2Out.2 (by decide)⟩

/-! ### C7: partial integration of extracted ingredients -/

/-- The item found by the case-insensitive lookup has the looked-up
name's lowercasing. -/
theorem findItemIdxByName_lower {items : List Item} {nm : String} {ii : ℕ}
    (h : findItemIdxByName items nm = some ii) :
    strLower (nthD items ii default).name = strLower nm := by
  unfold findItemIdxByName at h
  have := firstIdx_pred default h
  simpa using this

/-- Inside the integration loop, an ingredient whose name does not
resolve makes `updateIngredient` fail with `itemNotFound` (the caught,
warned case). -/
theorem updateIngredient_unresolved (st : MenuManager)
    (menuId recipeId nm : String) (amt : ℚ) (mi ri : ℕ)
    (hmi : firstIdx (fun m => m.id == menuId) st.menus = some mi)
    (hri : firstIdx (fun r => r.id == recipeId)
      (nthD st.menus mi default).recipes = some ri)
    (hfind : findItemIdxByName st.items nm = none) :
    updateIngredient st menuId recipeId nm amt = .error (.itemNotFound nm) := by
  simp [updateIngredient, hmi, hri, hfind]

/-- Inside the integration loop, an ingredient whose name resolves and
collides with no existing line's stored item name appends one line and
recosts: the target recipe's lines grow by `⟨ii, amt⟩`, its `dishPrice`
is rewritten from the new lines, its id is unchanged, and the menu and
recipe stay locatable at the same indices. -/
theorem updateIngredient_append_spec (st : MenuManager)
    (menuId recipeId nm : String) (amt : ℚ) (mi ri ii : ℕ)
    (st1 : MenuManager) (rr : Recipe)
    (hmi : firstIdx (fun m => m.id == menuId) st.menus = some mi)
    (hri : firstIdx (fun r => r.id == recipeId)
      (nthD st.menus mi default).recipes = some ri)
    (hfind : findItemIdxByName st.items nm = some ii)
    (hdup : ∀ line ∈ (nthD (nthD st.menus mi default).recipes ri default).ingredients,
      (nthD st.items line.itemIdx default).name ≠ nm)
    (h : updateIngredient st menuId recipeId nm amt = .ok (st1, rr)) :
    st1.items = st.items ∧
    firstIdx (fun m => m.id == menuId) st1.menus = some mi ∧
    firstIdx (fun r => r.id == recipeId)
      (nthD st1.menus mi default).recipes = some ri ∧
    nthD (nthD st1.menus mi default).recipes ri default = rr ∧
    rr.ingredients =
      (nthD (nthD st.menus mi default).recipes ri default).ingredients ++ [⟨ii, amt⟩] ∧
    rr.dishPrice = dishSum st.items rr ∧
    rr.id = (nthD (nthD st.menus mi default).recipes ri default).id := by
  have hmiLt : mi < st.menus.length := firstIdx_lt hmi
  have hriLt : ri < (nthD st.menus mi default).recipes.length := firstIdx_lt hri
  set m := nthD st.menus mi default with hm
  set r := nthD m.recipes ri default with hr
  have hdupIdx : firstIdx
      (fun ing => (nthD st.items ing.itemIdx default).name == nm)
      r.ingredients = none := by
    apply firstIdx_none
    intro a ha
    rw [beq_eq_false_iff_ne]
    exact hdup a ha
  simp only [updateIngredient, hmi, hri, hfind, hdupIdx] at h
  set rNew : Recipe := { r with ingredients := r.ingredients ++ [⟨ii, amt⟩] } with hrNew
  have hnth1 : nthD (setNth m.recipes ri rNew) ri default = rNew :=
    nthD_setNth_self rNew default (by simpa [length_setNth] using hriLt)
  simp only [recostRecipeAt, hnth1, setNth_setNth] at h
  set r2 : Recipe := { rNew with dishPrice := dishSum st.items rNew } with hr2
  set rs := setNth m.recipes ri r2 with hrs
  set m2 : Menu := { m with recipes := rs, menuCost := sumPrices rs } with hm2
  rw [Except.ok.injEq, Prod.mk.injEq] at h
  obtain ⟨hst1, hrr⟩ := h
  have hrreq : rr = r2 := by
    rw [← hrr]
    exact nthD_setNth_self r2 default (by simpa [length_setNth] using hriLt)
  have hstEq : st1 = { st with menus := setNth st.menus mi m2 } := hst1.symm
  have hm2nth : nthD (setNth st.menus mi m2) mi default = m2 :=
    nthD_setNth_self m2 default hmiLt
  have hr2nth : nthD rs ri default = r2 :=
    nthD_setNth_self r2 default (by simpa [hrs, length_setNth] using hriLt)
  refine ⟨?_, ?_, ?_, ?_, ?_, ?_, ?_⟩
  · rw [hstEq]
  · have hidm : ((m2 : Menu).id == menuId) = true := by
      have := firstIdx_pred default hmi
      simpa [hm2] using this
    rw [hstEq]
    exact firstIdx_setNth hmi hidm
  · have hidr : ((r2 : Recipe).id == recipeId) = true := by
      have := firstIdx_pred default hri
      simpa [hr2, hrNew] using this
    rw [hstEq]
    dsimp only
    rw [hm2nth]
    show firstIdx _ rs = some ri
    rw [hrs]
    exact firstIdx_setNth hri hidr
  · rw [hstEq]
    dsimp only
    rw [hm2nth]
    show nthD rs ri default = rr
    rw [hr2nth, hrreq]
  · rw [hrreq]
  · rw [hrreq, hr2]
    rfl
  · rw [hrreq]

/-- The integration loop: starting from a state in which the target menu
and recipe are locatable and the recipe's price is currently consistent,
and given that no pending ingredient name collides (case-sensitively)
with a stored line's item name and the pending names are pairwise
distinct after lowercasing, the loop appends exactly one line per
resolving name, warns exactly the non-resolving names in order, keeps
the price consistent, and never changes the catalog. -/
theorem integrateLoop_spec (items : List Item) (menuId recipeId : String) :
    ∀ (l : List JValue) (st : MenuManager) (warns : List String) (mi ri : ℕ),
    st.items = items →
    firstIdx (fun m => m.id == menuId) st.menus = some mi →
    firstIdx (fun r => r.id == recipeId)
      (nthD st.menus mi default).recipes = some ri →
    (nthD (nthD st.menus mi default).recipes ri default).dishPrice =
      dishSum items (nthD (nthD st.menus mi default).recipes ri default) →
    (∀ ing ∈ l, ∀ line ∈ (nthD (nthD st.menus mi default).recipes ri default).ingredients,
      (nthD items line.itemIdx default).name ≠ ingName ing) →
    (l.map (fun ing => strLower (ingName ing))).Nodup →
    ∃ st2,
      integrateLoop menuId recipeId (st, warns) l =
        (st2, warns ++ unresolvedNames items l) ∧
      st2.items = items ∧
      firstIdx (fun m => m.id == menuId) st2.menus = some mi ∧
      firstIdx (fun r => r.id == recipeId)
        (nthD st2.menus mi default).recipes = some ri ∧
      (nthD (nthD st2.menus mi default).recipes ri default).ingredients =
        (nthD (nthD st.menus mi default).recipes ri default).ingredients
          ++ resolvedLines items l ∧
      (nthD (nthD st2.menus mi default).recipes ri default).dishPrice =
        dishSum items (nthD (nthD st2.menus mi default).recipes ri default) ∧
      (nthD (nthD st2.menus mi default).recipes ri default).id =
        (nthD (nthD st.menus mi default).recipes ri default).id := by
  intro l
  induction l with
  | nil =>
    intro st warns mi ri hitems hmi hri hprice hcol hnodup
    exact ⟨st, by simp [integrateLoop, unresolvedNames], hitems, hmi, hri,
      by simp [resolvedLines], hprice, rfl⟩
  | cons ing rest ih =>
    intro st warns mi ri hitems hmi hri hprice hcol hnodup
    rw [List.map_cons, List.nodup_cons] at hnodup
    obtain ⟨hhead, hnodupRest⟩ := hnodup
    cases hfind : findItemIdxByName items (ingName ing) with
    | none =>
      have hfind' : findItemIdxByName st.items (ingName ing) = none := by
        rw [hitems]
        exact hfind
      have hupd := updateIngredient_unresolved st menuId recipeId (ingName ing)
        (ingAmount ing) mi ri hmi hri hfind'
      obtain ⟨st2, heq, hi2, hm2, hr2, hing2, hp2, hid2⟩ :=
        ih st (warns ++ [ingName ing]) mi ri hitems hmi hri hprice
          (fun ing' hing' line hline =>
            hcol ing' (List.mem_cons_of_mem ing hing') line hline)
          hnodupRest
      refine ⟨st2, ?_, hi2, hm2, hr2, ?_, hp2, hid2⟩
      · simp only [integrateLoop, hupd]
        rw [heq]
        simp [unresolvedNames, List.filterMap_cons, hfind, List.append_assoc]
      · rw [hing2]
        simp [resolvedLines, List.filterMap_cons, hfind]
    | some ii =>
      have hfind' : findItemIdxByName st.items (ingName ing) = some ii := by
        rw [hitems]
        exact hfind
      have hdup : ∀ line ∈ (nthD (nthD st.menus mi default).recipes ri default).ingredients,
          (nthD st.items line.itemIdx default).name ≠ ingName ing := by
        intro line hline
        rw [hitems]
        exact hcol ing (List.mem_cons_self ing rest) line hline
      cases hupd : updateIngredient st menuId recipeId (ingName ing) (ingAmount ing) with
      | error e =>
        exfalso
        have hdupIdx : firstIdx
            (fun ing' => (nthD st.items ing'.itemIdx default).name == ingName ing)
            (nthD (nthD st.menus mi default).recipes ri default).ingredients = none := by
          apply firstIdx_none
          intro a ha
          rw [beq_eq_false_iff_ne]
          exact hdup a ha
        simp only [updateIngredient, hmi, hri, hfind', hdupIdx] at hupd
        simp at hupd
      | ok pr =>
        obtain ⟨st1, rr⟩ := pr
        obtain ⟨hi1, hm1, hr1, hnth1, hing1, hp1, hid1⟩ :=
          updateIngredient_append_spec st menuId recipeId (ingName ing)
            (ingAmount ing) mi ri ii st1 rr hmi hri hfind' hdup hupd
        have hitems1 : st1.items = items := by rw [hi1, hitems]
        have hprice1 : (nthD (nthD st1.menus mi default).recipes ri default).dishPrice =
            dishSum items (nthD (nthD st1.menus mi default).recipes ri default) := by
          rw [hnth1, hp1, hitems]
        have hlower : strLower (nthD items ii default).name = strLower (ingName ing) :=
          findItemIdxByName_lower hfind
        have hcol1 : ∀ ing' ∈ rest,
            ∀ line ∈ (nthD (nthD st1.menus mi default).recipes ri default).ingredients,
            (nthD items line.itemIdx default).name ≠ ingName ing' := by
          intro ing' hing' line hline
          rw [hnth1, hing1] at hline
          rcases List.mem_append.mp hline with hold | hnew
          · exact hcol ing' (List.mem_cons_of_mem ing hing') line hold
          · have hline_eq : line = (⟨ii, ingAmount ing⟩ : Ingredient) := by
              simpa using hnew
            subst hline_eq
            intro hcontra
            apply hhead
            refine List.mem_map.mpr ⟨ing', hing', ?_⟩
            have h2 : strLower (ingName ing') = strLower ((nthD items ii default).name) := by
              rw [hcontra]
            rw [h2, hlower]
        obtain ⟨st2, heq2, hi2, hm2, hr2, hing2, hp2, hid2⟩ :=
          ih st1 warns mi ri hitems1 hm1 hr1 hprice1 hcol1 hnodupRest
        refine ⟨st2, ?_, hi2, hm2, hr2, ?_, hp2, ?_⟩
        · simp only [integrateLoop, hupd]
          rw [heq2]
          simp [unresolvedNames, List.filterMap_cons, hfind]
        · rw [hing2, hnth1, hing1]
          simp [resolvedLines, List.filterMap_cons, hfind, List.append_assoc]
        · rw [hid2, hnth1, hid1]

theorem nthD_mem : ∀ {l : List α} {i : ℕ} (d : α), i < l.length → nthD l i d ∈ l := by
  intro l
  induction l with
  | nil => intro i d h; simp at h
  | cons a as ih =>
    intro i d h
    cases i with
    | zero => simp [nthD]
    | succ n =>
      simp only [nthD]
      exact List.mem_cons_of_mem a (ih d (by simpa using h))

/-- C7: a successful extraction whose ingredients list partly resolves
never aborts over an unresolved name — the catalog is unchanged, the
warning report is exactly the unresolved names in order, the created
recipe holds exactly one line per resolved ingredient (in order), and its
`dishPrice` is the cost sum over those resolved lines only.  The
lowercased extracted names are assumed pairwise distinct (as in the
spec's scenario), and the fresh recipe id must not already occur (true
in every state the manager itself constructs). -/
theorem c7_partial_integration (st : MenuManager) (menuId : String)
    (v : JValue) (l : List JValue) (st' : MenuManager) (r' : Recipe)
    (warns : List String)
    (hing : jGet v "ingredients" = some (.arr l))
    (hnodup : (l.map (fun ing => strLower (ingName ing))).Nodup)
    (hfresh : ∀ m ∈ st.menus, ∀ r ∈ m.recipes,
      r.id ≠ "recipe-" ++ toString st.nextId)
    (h : processParsed st menuId v = .ok (st', r', warns)) :
    st'.items = st.items ∧
    warns = unresolvedNames st.items l ∧
    r'.ingredients = resolvedLines st.items l ∧
    r'.dishPrice = dishSum st'.items r' := by
  unfold processParsed at h
  by_cases hreq : requiredFieldsPresent v = false
  · rw [if_pos hreq] at h
    simp at h
  · rw [if_neg hreq] at h
    cases hi : jGet v "instructions" with
    | none => simp only [hi] at h; simp at h
    | some jv =>
      cases jv with
      | null => simp only [hi] at h; simp at h
      | bool b => simp only [hi] at h; simp at h
      | num q => simp only [hi] at h; simp at h
      | arr ll => simp only [hi] at h; simp at h
      | obj fs => simp only [hi] at h; simp at h
      | str instr =>
        simp only [hi] at h
        have hiter : ingredientsIter ((jGet v "ingredients").getD JValue.null) = some l := by
          rw [hing]
          rfl
        simp only [hiter] at h
        cases hc : semanticCount (strLower instr) l with
        | none => simp only [hc] at h; simp at h
        | some mentioned =>
          simp only [hc] at h
          by_cases hth : l.length ≠ 0 ∧ ((mentioned : ℚ) / (l.length : ℚ)) * 100 < 75
          · rw [if_pos hth] at h
            simp at h
          · rw [if_neg hth] at h
            cases hmi : firstIdx (fun m => m.id == menuId) st.menus with
            | none =>
              have hcr : createRecipe st menuId (jCoerceStr (jGet v "name")) instr
                  (jCoerceNum (jGet v "servingQuantity"))
                  (jCoerceStr (jGet v "dishType")) 1 = .error (.menuNotFound menuId) := by
                simp [createRecipe, hmi]
              simp only [hcr] at h
              simp at h
            | some mi =>
              have hmiLt : mi < st.menus.length := firstIdx_lt hmi
              set m := nthD st.menus mi default with hm
              set r0 : Recipe := ⟨"recipe-" ++ toString st.nextId,
                jCoerceStr (jGet v "name"), instr,
                jCoerceNum (jGet v "servingQuantity"),
                jCoerceStr (jGet v "dishType"), 1, [], 0⟩ with hr0
              set m' : Menu := { m with recipes := m.recipes ++ [r0] } with hm'
              set st1 : MenuManager :=
                { st with menus := setNth st.menus mi m', nextId := st.nextId + 1 } with hst1
              have hcr : createRecipe st menuId (jCoerceStr (jGet v "name")) instr
                  (jCoerceNum (jGet v "servingQuantity"))
                  (jCoerceStr (jGet v "dishType")) 1 = .ok (st1, r0) := by
                simp only [createRecipe, hmi]
              simp only [hcr] at h
              have hitems1 : st1.items = st.items := rfl
              have hidm : ((m' : Menu).id == menuId) = true := by
                have := firstIdx_pred default hmi
                simpa [hm'] using this
              have hm1 : firstIdx (fun mm => mm.id == menuId) st1.menus = some mi := by
                show firstIdx _ (setNth st.menus mi m') = some mi
                exact firstIdx_setNth hmi hidm
              have hnthm : nthD st1.menus mi default = m' := by
                show nthD (setNth st.menus mi m') mi default = m'
                exact nthD_setNth_self m' default hmiLt
              have hr1 : firstIdx (fun r => r.id == r0.id)
                  (nthD st1.menus mi default).recipes = some m.recipes.length := by
                rw [hnthm]
                show firstIdx _ (m.recipes ++ [r0]) = _
                apply firstIdx_append_singleton
                · apply firstIdx_none
                  intro a ha
                  rw [beq_eq_false_iff_ne]
                  exact hfresh m (nthD_mem default hmiLt) a ha
                · simp
              have hnthr : nthD (nthD st1.menus mi default).recipes
                  m.recipes.length default = r0 := by
                rw [hnthm]
                show nthD (m.recipes ++ [r0]) m.recipes.length default = r0
                rw [nthD_append_of_length]
                rfl
              have hprice0 : (nthD (nthD st1.menus mi default).recipes
                  m.recipes.length default).dishPrice =
                  dishSum st.items (nthD (nthD st1.menus mi default).recipes
                    m.recipes.length default) := by
                rw [hnthr]
                rfl
              have hcol0 : ∀ ing ∈ l, ∀ line ∈ (nthD (nthD st1.menus mi default).recipes
                  m.recipes.length default).ingredients,
                  (nthD st.items line.itemIdx default).name ≠ ingName ing := by
                intro ing hingmem line hline
                rw [hnthr] at hline
                simp [hr0] at hline
              obtain ⟨st2, heq2, hi2, hm2, hr2, hing2, hp2, hid2⟩ :=
                integrateLoop_spec st.items menuId r0.id l st1 [] mi m.recipes.length
                  hitems1 hm1 hr1 hprice0 hcol0 hnodup
              rw [heq2] at h
              have hfm : findMenu? st2 menuId = some (nthD st2.menus mi default) := by
                simp [findMenu?, hm2]
              have hfr : findRecipe? (nthD st2.menus mi default)
                  ("recipe-" ++ toString st.nextId) =
                  some (nthD (nthD st2.menus mi default).recipes m.recipes.length default) := by
                have : ((fun r => r.id == r0.id) : Recipe → Bool) =
                    (fun r => r.id == "recipe-" ++ toString st.nextId) := rfl
                simp only [findRecipe?]
                rw [← this, hr2]
                rfl
              simp only [hfm, Option.some_bind, hfr, Option.getD_some] at h
              rw [Except.ok.injEq, Prod.mk.injEq, Prod.mk.injEq] at h
              obtain ⟨hst', hr', hwarns⟩ := h
              refine ⟨?_, ?_, ?_, ?_⟩
              · rw [← hst']
                exact hi2
              · rw [← hwarns]
                simp
              · rw [← hr', hing2, hnthr]
                simp [hr0]
              · rw [← hr', ← hst']
                rw [hi2]
                exact hp2

/-- Witness for C7 (the spec's Scenario D): ten ingredients, six resolve
and four do not — the recipe is created with six lines, the four
unresolved names are reported, and the price sums the six resolved lines
only. -/
theorem c7_partial_integration_witness :
    jGet c7V "ingredients" = some (.arr c7L) ∧
    (c7L.map (fun ing => strLower (ingName ing))).Nodup ∧
    (∀ m ∈ c7St.menus, ∀ r ∈ m.recipes, r.id ≠ "recipe-" ++ toString c7St.nextId) ∧
    processParsed c7St "menu-1" c7V = .ok (c7Out.1, c7Out.2.1, c7Out.2.2) ∧
    c7Out.2.2.length = 4 ∧ c7Out.2.1.ingredients.length = 6 ∧
    (c7Out.1.items = c7St.items ∧
      c7Out.2.2 = unresolvedNames c7St.items c7L ∧
      c7Out.2.1.ingredients = resolvedLines c7St.items c7L ∧
      c7Out.2.1.dishPrice = dishSum c7Out.1.items c7Out.2.1) :=
  ⟨rfl, by decide, by decide, by decide, by decide, by decide,
    c7_partial_integration c7St "menu-1" c7V c7L c7Out.1 c7Out.2.1 c7Out.2.2
      rfl (by decide) (by decide) (by decide)⟩

end PlatMaison
